import Mathlib

/-!
Verification model of the flamedisx optimization layer
(`flamedisx/inference.py`): the `Objective` evaluation engine
(memoized, bounds- and NaN-guarded `__call__`), the parameter codec
(`_dict_to_array` / `_array_to_dict`), the `minimize` / `parse_result` /
`fail` protocol, the Minuit error-step defaults, and the
`IntervalObjective` guess and evaluation formulas.

Floating-point values manipulated by this layer are modelled by the type
`F` below (NaN, plus/minus infinity, or a finite rational); formulas that
genuinely need square roots (the interval guess construction) are
modelled over the reals instead.
-/

namespace Flamedisx

/-- A float value as this layer distinguishes them: NaN, an infinity, or a
finite value (modelled as a rational). -/
inductive F where
  | nan : F
  | inf : F
  | ninf : F
  | fin : ℚ → F
deriving DecidableEq

/-- `np.isnan`. -/
def F.isnan : F → Bool
  | .nan => true
  | _ => false

/-- IEEE `q <= v` for a finite bound `q` (NaN compares false). Used in the
lower-bound check `b[0] <= v` of `Objective.__call__`. -/
def F.qle (q : ℚ) : F → Bool
  | .nan => false
  | .inf => true
  | .ninf => false
  | .fin r => decide (q ≤ r)

/-- IEEE `v < q` for a finite bound `q` (NaN compares false). Used in the
upper-bound check `v < b[1]` of `Objective.__call__`. -/
def F.ltq : F → ℚ → Bool
  | .nan, _ => false
  | .inf, _ => false
  | .ninf, _ => true
  | .fin r, q => decide (r < q)

/-- A `(left, right)` bounds pair; `none` means unbounded on that side. -/
abbrev Bound := Option ℚ × Option ℚ

/-- Python dict merge `{**d, **e}`: keys of `d` keep their position, with
values overridden by `e` where present; keys only in `e` are appended in
their order. -/
def dictMerge (d e : List (String × F)) : List (String × F) :=
  d.map (fun kv => ((kv.1, (List.lookup kv.1 e).getD kv.2) : String × F)) ++
    e.filter (fun kv => (List.lookup kv.1 d).isNone)

/-- `Objective._dict_to_array`: `np.array([x[k] for k in self.arg_names])`.
A missing key raises `KeyError` in Python, modelled as `none`. -/
def dict_to_array (d : List (String × F)) : List String → Option (List F)
  | [] => some []
  | k :: ks =>
    match List.lookup k d, dict_to_array d ks with
    | some v, some vs => some (v :: vs)
    | _, _ => none

/-- `Objective._array_to_dict`: `{k: x[i] for i, k in enumerate(arg_names)}`
after `assert len(x) == len(self.arg_names)`; the failed assertion is
modelled as `none`. -/
def array_to_dict (names : List String) (x : List F) : Option (List (String × F)) :=
  if x.length = names.length then some (names.zip x) else none

/-- `ObjectiveResult` named tuple. (`fun` is a Lean keyword, hence `fun'`.) -/
structure ObjectiveResult where
  fun' : F
  grad : List F
deriving DecidableEq

/-- One entry of `Objective._history`:
`dict(params=params, y=y, grad=grad)`. -/
structure HistEntry where
  params : List (String × F)
  y : F
  grad : List F
deriving DecidableEq

/-- The mutable state of an `Objective` instance: the evaluation cache
`_cache` and the evaluation history `_history`. -/
structure CallState where
  cache : List (List F × ObjectiveResult)
  history : List HistEntry
deriving DecidableEq

/-- State after `__init__`: `self._cache = dict()`, `self._history = []`. -/
def CallState.start : CallState := ⟨[], []⟩

/-- The configuration of an `Objective` instance (fields set in
`Objective.__init__`): ordered fitted-parameter names `arg_names`, the
merged guess `{**guess, **fix}`, the fixed set, the processed bounds
table, `nan_val`, the `memoize` class attribute, the `get_history` /
`get_lowlevel_result` / `allow_failure` flags, and the likelihood
collaborator `lf` (modelled as the function
`params ↦ lf.minus_ll(**params, omit_grads=fix.keys())`). -/
structure Objective where
  arg_names : List String
  guess : List (String × F)
  fix : List (String × F)
  bounds : List (String × Bound)
  nan_val : F
  memoize : Bool
  return_history : Bool
  get_lowlevel_result : Bool
  allow_failure : Bool
  lf : List (String × F) → F × List F

/-- The `__init__` default `nan_val=float('inf')`. -/
def nanValDefault : F := F.inf

/-- The `__init__` default `allow_failure=False`. -/
def allowFailureDefault : Bool := false

/-- `Objective.nan_result`: `fun = nan_val`,
`grad = np.ones(len(arg_names)) * float('nan')`. -/
def Objective.nan_result (o : Objective) : ObjectiveResult :=
  ⟨o.nan_val, List.replicate o.arg_names.length F.nan⟩

/-- The per-parameter validity check of the loop
`for k, v in params.items()` in `Objective.__call__`: NaN check first,
then the bounds check `(b[0] is None or b[0] <= v) and
(b[1] is None or v < b[1])` for parameters present in `self.bounds`
(closed lower bound, open upper bound). -/
def paramInvalid (bounds : List (String × Bound)) (k : String) (v : F) : Bool :=
  v.isnan ||
    (match List.lookup k bounds with
     | none => false
     | some b =>
       !((match b.1 with | none => true | some lo => F.qle lo v) &&
         (match b.2 with | none => true | some hi => F.ltq v hi)))

/-- True iff the parameter-validity loop of `Objective.__call__` rejects
`params` (each failing iteration returns the same `nan_result()`, so the
early return is equivalent to an existence check). -/
def Objective.guardRejects (o : Objective) (params : List (String × F)) : Bool :=
  params.any (fun kv => paramInvalid o.bounds kv.1 kv.2)

/-- The tail of `Objective.__call__` after the parameter guard has passed
(source lines 160-178): likelihood call, history append, NaN-result
substitution, cache store. Factored out of `Objective.call` for proof
granularity. -/
def Objective.computeBranch (o : Objective) (s : CallState) (x : List F)
    (params : List (String × F)) : ObjectiveResult × CallState × Bool :=
  let y := (o.lf params).1
  let grad := (o.lf params).2
  let history' := if o.return_history
    then s.history ++ [⟨params, y, grad⟩] else s.history
  let result := if y.isnan || grad.any F.isnan
    then o.nan_result else ⟨y, grad⟩
  let cache' := if o.memoize then (x, result) :: s.cache else s.cache
  (result, ⟨cache', history'⟩, true)

/-- `Objective.__call__`. Returns `none` when the Python call raises (the
length assertion of `_array_to_dict`); otherwise
`some (result, new state, lf_called)`, where the boolean records whether
the likelihood collaborator `self._inner_fun_and_grad` was invoked on
this call. Mirrors the source order: cache lookup, decode + merge with
`fix`, validity guard (which returns before the history append and before
caching), then the compute branch. -/
def Objective.call (o : Objective) (s : CallState) (x : List F) :
    Option (ObjectiveResult × CallState × Bool) :=
  match (if o.memoize then List.lookup x s.cache else none) with
  | some r => some (r, s, false)
  | none =>
    match array_to_dict o.arg_names x with
    | none => none
    | some d =>
      if o.guardRejects (dictMerge d o.fix) then
        some (o.nan_result, s, false)
      else
        some (o.computeBranch s x (dictMerge d o.fix))

/-- A sequence of `__call__`s on one instance, from state `s`. Returns the
per-call trace `(input vector, result, lf_called)` and the final state;
`none` if any call raises. -/
def Objective.runCalls (o : Objective) (s : CallState) :
    List (List F) → Option (List (List F × ObjectiveResult × Bool) × CallState)
  | [] => some ([], s)
  | x :: rest =>
    match o.call s x with
    | none => none
    | some (r, s', b) =>
      match o.runCalls s' rest with
      | none => none
      | some (tr, s'') => some ((x, r, b) :: tr, s'')

/-- Number of calls in a trace that evaluated the likelihood collaborator
at the vector `x`. -/
def lfCount (x : List F) (tr : List (List F × ObjectiveResult × Bool)) : Nat :=
  tr.countP (fun t => t.1 == x && t.2.2)

/-- The history entry produced by a non-cached, guard-passing call at `x`. -/
def Objective.entryFor (o : Objective) (x : List F) : HistEntry :=
  let params := dictMerge ((array_to_dict o.arg_names x).getD []) o.fix
  ⟨params, (o.lf params).1, (o.lf params).2⟩

/-- A cache key is valid if it decodes (correct length) and passes the
parameter guard. -/
def Objective.validKey (o : Objective) (k : List F) : Prop :=
  ∃ d, array_to_dict o.arg_names k = some d ∧
    o.guardRejects (dictMerge d o.fix) = false

/-! ### Failure policy and result parsing -/

/-- The observable outcome of `Objective.fail`: an `OptimizerFailure`
raised, or an `OptimizerWarning` emitted. -/
inductive FailAction where
  | raised (message : String)
  | warned (message : String)
deriving DecidableEq

/-- `Objective.fail`: raise unless `allow_failure`, in which case warn. -/
def Objective.fail (o : Objective) (message : String) : FailAction :=
  if o.allow_failure then .warned message else .raised message

/-- The fields of the `scipy.optimize.OptimizeResult` that
`ScipyObjective.parse_result` reads. -/
structure ScipyResult where
  success : Bool
  status : Int
  message : String
  x : List F
  fval : F

/-- The message built by `ScipyObjective.parse_result` on failure. -/
def scipyFailMessage (r : ScipyResult) : String :=
  "Scipy optimizer failed: status = " ++ toString r.status ++ ": " ++ r.message

/-- `ScipyObjective.parse_result`: on non-success it calls `self.fail`; a
raised failure propagates (`Except.error`) and nothing is returned, a
demoted one is recorded as a warning, after which the parsed result
`(dict(zip(self.arg_names, result.x)), result.fun)` is still returned. -/
def Objective.scipyParseResult (o : Objective) (r : ScipyResult) :
    Except String (List (String × F) × F) × List String :=
  if r.success then (.ok (o.arg_names.zip r.x, r.fval), [])
  else
    match o.fail (scipyFailMessage r) with
    | .raised m => (.error m, [])
    | .warned m => (.ok (o.arg_names.zip r.x, r.fval), [m])

/-! ### The minimize protocol -/

/-- The three possible returns of `Objective.minimize`: the raw backend
result (`get_lowlevel_result`), the evaluation history (`get_history`),
or the parsed-and-merged mapping (normal path, paired with the
no-progress warnings emitted on the way). -/
inductive MinimizeReturn (ρ : Type) where
  | lowlevel (raw : ρ)
  | history (entries : List HistEntry)
  | parsed (result : List (String × F)) (warnings : List (String × F))

/-- The guess-comparison loop of `Objective.minimize`:
`for k, v in result.items(): if self.guess[k] == v: warn(...)`. A key
missing from `self.guess` raises `KeyError` (`none`); otherwise the
pairs for which the no-progress `OptimizerWarning` fires are returned
in order. -/
def Objective.guessWarnings (o : Objective) :
    List (String × F) → Option (List (String × F))
  | [] => some []
  | (k, v) :: rest =>
    match List.lookup k o.guess with
    | none => none
    | some g =>
      match o.guessWarnings rest with
      | none => none
      | some ws => some (if g = v then (k, v) :: ws else ws)

/-- `Objective.minimize` (source lines 208-226), with the backend raw
result `raw` (produced by the backend-specific `_minimize`) and
`parse_result` passed in; a `parse_result` that raises is `none` and
propagates. After parsing: guess-comparison warnings, then the merge
`{**result, **self.fix}`. -/
def Objective.minimizeModel {ρ : Type} (o : Objective) (s : CallState)
    (raw : ρ) (parseResult : ρ → Option (List (String × F) × F)) :
    Option (MinimizeReturn ρ) :=
  if o.get_lowlevel_result then some (.lowlevel raw)
  else if o.return_history then some (.history s.history)
  else
    match parseResult raw with
    | none => none
    | some (result, _llval) =>
      match o.guessWarnings result with
      | none => none
      | some ws => some (.parsed (dictMerge result o.fix) ws)

/-- `MinuitObjective._minimize` error-step defaults:
`np.maximum(x_guess * 0.1, 1e-3 * np.ones_like(x_guess))`, elementwise
over the guess vector (finite guess values; NaN would propagate in
numpy and is outside this model). -/
def minuitErrorDefault (x_guess : List ℚ) : List ℚ :=
  x_guess.map (fun g => max (g * (1 / 10)) (1 / 1000))

/-! ### IntervalObjective (real-valued formulas) -/

/-- `LOWER_RATE_MULTIPLIER_BOUND = 1e-9`. -/
noncomputable def LOWER_RATE_MULTIPLIER_BOUND : ℝ := 1e-9

/-- The guess construction of `IntervalObjective.__init__` for a target
parameter without an explicit guess (source lines 437-459). `dy` stands
for `fd.wilks_crit(self.critical_quantile)` (a chi-squared critical
value computed outside this file and passed in here); `(2 * dy) ** 0.5`
is `Real.sqrt (2 * dy)` (equal for the nonnegative `dy` a quantile
produces); `float('inf')` for `dx_2` is modelled by `none`, so that
`min(dx_1, dx_2)` with an infinite `dx_2` is `dx_1`. -/
noncomputable def tpGuessNoExplicit
    (bestfit_tp sigma_guess bestfit_tp_slope dy direction : ℝ)
    (targetIsRateMultiplier : Bool) : ℝ :=
  let dx_1 := Real.sqrt (2 * dy) * |sigma_guess|
  let dx_2 : Option ℝ :=
    if bestfit_tp_slope = 0 then none else some |dy / bestfit_tp_slope|
  let dx := match dx_2 with
    | none => dx_1
    | some d2 => min dx_1 d2
  let tp_guess := max LOWER_RATE_MULTIPLIER_BOUND (bestfit_tp + direction * dx)
  if targetIsRateMultiplier then max tp_guess LOWER_RATE_MULTIPLIER_BOUND
  else tp_guess

/-- The fields of an `IntervalObjective` read by `_inner_fun_and_grad`
(all set in `__init__`): `arg_names`, the target parameter, `bestfit_tp`,
`sigma_guess`, the direction, `llr_tolerance` and `critical_quantile`
(for the tilt), `m2ll_best`, the pluggable critical-value function
`t_ppf` and its derivative `t_ppf_grad`, and the wrapped base evaluation
`super()._inner_fun_and_grad`. Float values are modelled as reals. -/
structure IntervalObjectiveR where
  arg_names : List String
  target_parameter : String
  bestfit_tp : ℝ
  sigma_guess : ℝ
  direction : ℝ
  llr_tolerance : ℝ
  critical_quantile : ℝ
  m2ll_best : ℝ
  t_ppf : ℝ → ℝ
  t_ppf_grad : ℝ → ℝ
  base : List (String × ℝ) → ℝ × List ℝ

/-- The class attribute `IntervalObjective._offset = 1`. -/
def intervalOffset : ℝ := 1

/-- `self.tilt = 4 * self.llr_tolerance * self.critical_quantile`. -/
noncomputable def IntervalObjectiveR.tilt (o : IntervalObjectiveR) : ℝ :=
  4 * o.llr_tolerance * o.critical_quantile

/-- `IntervalObjective._inner_fun_and_grad`. `params[target_parameter]`
and `arg_names.index(target_parameter)` raise in Python when absent; the
theorems below carry those hypotheses, and the `getD` defaults are never
reached under them. `grad[idx] += extra_grad` is `List.set idx
(grad.getD idx 0 + extra_grad)`. -/
noncomputable def IntervalObjectiveR.inner_fun_and_grad
    (o : IntervalObjectiveR) (params : List (String × ℝ)) : ℝ × List ℝ :=
  let x := (List.lookup o.target_parameter params).getD 0
  let x_norm := (x - o.bestfit_tp) / o.sigma_guess
  let fg := o.base params
  let diff := (fg.1 - o.m2ll_best) - o.t_ppf x
  let fun1 := diff ^ 2
  let grad1 := fg.2.map (fun g => 2 * diff * (g - o.t_ppf_grad x))
  let fun2 := fun1 - o.direction * o.tilt * x_norm
  let extra_grad := -o.direction * o.tilt / o.sigma_guess
  let idx := o.arg_names.indexOf o.target_parameter
  let grad2 := grad1.set idx (grad1.getD idx 0 + extra_grad)
  (fun2 + intervalOffset, grad2)

/-- `IntervalObjective.absolute_to_relative_tol`:
`llr_tolerance / self._offset`. -/
noncomputable def IntervalObjectiveR.absolute_to_relative_tol
    (llr_tolerance : ℝ) : ℝ :=
  llr_tolerance / intervalOffset

/-! ### Concrete test fixtures -/

/-- A two-parameter objective (memoization on, history off), with a lower
bound `0` on `a`; the likelihood collaborator returns a constant finite
value and gradient. -/
def oA : Objective where
  arg_names := ["a", "b"]
  guess := [("a", F.fin 1), ("b", F.fin 2)]
  fix := []
  bounds := [("a", (some 0, none))]
  nan_val := F.inf
  memoize := true
  return_history := false
  get_lowlevel_result := false
  allow_failure := false
  lf := fun _ => (F.fin 3, [F.fin 1, F.fin 1])

/-- Like `oA` but with history recording enabled. -/
def oH : Objective where
  arg_names := ["a", "b"]
  guess := [("a", F.fin 1), ("b", F.fin 2)]
  fix := []
  bounds := [("a", (some 0, none))]
  nan_val := F.inf
  memoize := true
  return_history := true
  get_lowlevel_result := false
  allow_failure := false
  lf := fun _ => (F.fin 3, [F.fin 1, F.fin 1])

/-- A one-fitted-parameter objective with `b` fixed at `3.0` (the spec's
fixed-parameter example). -/
def oF : Objective where
  arg_names := ["a"]
  guess := [("a", F.fin 1), ("b", F.fin 3)]
  fix := [("b", F.fin 3)]
  bounds := []
  nan_val := F.inf
  memoize := true
  return_history := false
  get_lowlevel_result := false
  allow_failure := false
  lf := fun _ => (F.fin 3, [F.fin 1])

/-- A non-converged scipy raw result. -/
def rFail : ScipyResult where
  success := false
  status := 4
  message := "Max. number of function evaluations reached"
  x := [F.fin 1, F.fin 2]
  fval := F.fin 7

/-- A one-parameter interval objective with trivial collaborators. -/
def oI : IntervalObjectiveR where
  arg_names := ["t"]
  target_parameter := "t"
  bestfit_tp := 0
  sigma_guess := 1
  direction := 1
  llr_tolerance := 1
  critical_quantile := 1
  m2ll_best := 0
  t_ppf := fun _ => 0
  t_ppf_grad := fun _ => 0
  base := fun _ => (0, [0])

/-! ### Association-list helper lemmas -/

theorem lookup_cons {α β : Type} [BEq α] (a b : α) (v : β) (l : List (α × β)) :
    List.lookup a ((b, v) :: l) = if a == b then some v else List.lookup a l := by
  rcases h : a == b <;> simp [List.lookup, h]

theorem lookup_append {α β : Type} [BEq α] (a : α) :
    ∀ (l r : List (α × β)),
      List.lookup a (l ++ r) = (List.lookup a l).or (List.lookup a r)
  | [], r => by simp
  | (b, v) :: l, r => by
    rcases h : a == b with _ | _ <;>
      simp [lookup_cons, h, lookup_append a l r]

theorem lookup_map_pair {α β : Type} [BEq α] [LawfulBEq α] (f : α → β) (k : α) :
    ∀ names : List α,
      List.lookup k (names.map fun n => (n, f n)) =
        if k ∈ names then some (f k) else none
  | [] => by simp
  | n :: ns => by
    by_cases h : k = n
    · subst h; simp [lookup_cons]
    · have hb : (k == n) = false := beq_eq_false_iff_ne.mpr h
      simp [lookup_cons, hb, h, lookup_map_pair f k ns]

theorem zip_self_map {α β : Type} (f : α → β) :
    ∀ names : List α, names.zip (names.map f) = names.map fun n => (n, f n)
  | [] => rfl
  | n :: ns => by simp [zip_self_map f ns]

/-- Lookup in the override part of `dictMerge`. -/
theorem lookup_map_override {α β : Type} [BEq α] [LawfulBEq α]
    (g : α → β → β) (k : α) :
    ∀ d : List (α × β),
      List.lookup k (d.map fun kv => (kv.1, g kv.1 kv.2)) =
        (List.lookup k d).map (g k)
  | [] => by simp
  | (a, b) :: d => by
    by_cases h : k = a
    · subst h; simp [lookup_cons]
    · have hb : (k == a) = false := beq_eq_false_iff_ne.mpr h
      simp [lookup_cons, hb, lookup_map_override g k d]

/-- Lookup in the append part of `dictMerge` when the key is absent from
the overriding side. -/
theorem lookup_filter_isNone {α β : Type} [BEq α] [LawfulBEq α]
    (k : α) (d : List (α × β)) (hk : List.lookup k d = none) :
    ∀ e : List (α × β),
      List.lookup k (e.filter fun kv => (List.lookup kv.1 d).isNone) =
        List.lookup k e
  | [] => rfl
  | (a, b) :: e => by
    by_cases h : k = a
    · subst h
      simp [List.filter_cons, hk, lookup_cons]
    · have hb : (k == a) = false := beq_eq_false_iff_ne.mpr h
      by_cases hcond : (List.lookup a d).isNone
      · simp [List.filter_cons, hcond, lookup_cons, hb,
          lookup_filter_isNone k d hk e]
      · simp [List.filter_cons, hcond, lookup_cons, hb,
          lookup_filter_isNone k d hk e]

/-- Characterization of Python dict merge `{**d, **e}` by lookup. -/
theorem lookup_dictMerge (k : String) (d e : List (String × F)) :
    List.lookup k (dictMerge d e) =
      match List.lookup k d with
      | some v => some ((List.lookup k e).getD v)
      | none => List.lookup k e := by
  unfold dictMerge
  rw [lookup_append,
    lookup_map_override (fun a b => (List.lookup a e).getD b) k d]
  cases hd : List.lookup k d with
  | none => simp [lookup_filter_isNone k d hd e]
  | some v => simp

/-! ### Case analysis for `Objective.call` -/

/-- Every successful `__call__` is a cache hit, a guard rejection, or a
likelihood evaluation. -/
theorem call_cases {o : Objective} {s : CallState} {x : List F}
    {r : ObjectiveResult} {s' : CallState} {b : Bool}
    (h : o.call s x = some (r, s', b)) :
    ((if o.memoize then List.lookup x s.cache else none) = some r ∧
        s' = s ∧ b = false) ∨
    (∃ d, (if o.memoize then List.lookup x s.cache else none) = none ∧
      array_to_dict o.arg_names x = some d ∧
      ((o.guardRejects (dictMerge d o.fix) = true ∧
          r = o.nan_result ∧ s' = s ∧ b = false) ∨
       (o.guardRejects (dictMerge d o.fix) = false ∧
          (r, s', b) = o.computeBranch s x (dictMerge d o.fix)))) := by
  unfold Objective.call at h
  split at h
  case _ r₁ heq =>
    left
    have h' : (r₁, s, false) = (r, s', b) := by injection h
    obtain ⟨h1, h2, h3⟩ : r₁ = r ∧ s = s' ∧ false = b := by
      simpa [Prod.ext_iff] using h'
    exact ⟨h1 ▸ heq, h2.symm, h3.symm⟩
  case _ heq =>
    right
    split at h
    · exact absurd h (by simp)
    case _ d hd =>
      refine ⟨d, heq, hd, ?_⟩
      split at h
      case isTrue hg =>
        left
        have h' : (o.nan_result, s, false) = (r, s', b) := by injection h
        obtain ⟨h1, h2, h3⟩ : o.nan_result = r ∧ s = s' ∧ false = b := by
          simpa [Prod.ext_iff] using h'
        exact ⟨hg, h1.symm, h2.symm, h3.symm⟩
      case isFalse hg =>
        right
        have h' : o.computeBranch s x (dictMerge d o.fix) = (r, s', b) := by
          injection h
        exact ⟨Bool.eq_false_iff.mpr hg, h'.symm⟩

/-- Components of the compute branch. -/
theorem computeBranch_eq (o : Objective) (s : CallState) (x : List F)
    (params : List (String × F)) :
    o.computeBranch s x params =
      (if (o.lf params).1.isnan || (o.lf params).2.any F.isnan
          then o.nan_result else ⟨(o.lf params).1, (o.lf params).2⟩,
       ⟨if o.memoize
          then (x, if (o.lf params).1.isnan || (o.lf params).2.any F.isnan
            then o.nan_result
            else ⟨(o.lf params).1, (o.lf params).2⟩) :: s.cache
          else s.cache,
        if o.return_history
          then s.history ++ [⟨params, (o.lf params).1, (o.lf params).2⟩]
          else s.history⟩,
       true) := rfl

/-! ### Cache invariant: only guard-passing evaluations reach the cache -/

theorem call_validKey_preserved {o : Objective} {s : CallState} {x : List F}
    {r : ObjectiveResult} {s' : CallState} {b : Bool}
    (h : o.call s x = some (r, s', b))
    (hs : ∀ k, (List.lookup k s.cache).isSome → o.validKey k) :
    ∀ k, (List.lookup k s'.cache).isSome → o.validKey k := by
  rcases call_cases h with ⟨_, hs', _⟩ | ⟨d, _, hd, ⟨_, _, hs', _⟩ | ⟨hg, hc⟩⟩
  · exact hs' ▸ hs
  · exact hs' ▸ hs
  · have hcache : s'.cache =
        if o.memoize
          then (x, r) :: s.cache else s.cache := by
      have h1 := congrArg (fun p => p.2.1.cache) hc
      have h2 := congrArg Prod.fst hc
      simp only [computeBranch_eq] at h1 h2
      simp only [h1, h2]
    intro k hk
    rw [hcache] at hk
    by_cases hm : o.memoize
    · simp only [hm, if_true] at hk
      rw [lookup_cons] at hk
      by_cases hkx : k == x
      · exact (eq_of_beq hkx) ▸ ⟨d, hd, hg⟩
      · rw [if_neg (by simp [hkx])] at hk
        exact hs k hk
    · simp only [hm, if_false] at hk
      exact hs k hk

/-- Inversion for `runCalls` on the empty list. -/
theorem runCalls_nil_inv {o : Objective} {s : CallState} {tr s'}
    (h : o.runCalls s [] = some (tr, s')) : tr = [] ∧ s' = s := by
  unfold Objective.runCalls at h
  have h' : (([] : List (List F × ObjectiveResult × Bool)), s) = (tr, s') := by
    injection h
  obtain ⟨h1, h2⟩ : ([] : List (List F × ObjectiveResult × Bool)) = tr ∧ s = s' := by
    simpa [Prod.ext_iff] using h'
  exact ⟨h1.symm, h2.symm⟩

/-- Inversion for `runCalls` on a nonempty list. -/
theorem runCalls_cons_inv {o : Objective} {s : CallState} {x : List F}
    {xs : List (List F)} {tr s'}
    (h : o.runCalls s (x :: xs) = some (tr, s')) :
    ∃ r s1 b tr1, o.call s x = some (r, s1, b) ∧
      o.runCalls s1 xs = some (tr1, s') ∧ tr = (x, r, b) :: tr1 := by
  unfold Objective.runCalls at h
  split at h
  · cases h
  case _ r s1 b heq =>
    split at h
    · cases h
    case _ tr1 s2 heq2 =>
      have h' : ((x, r, b) :: tr1, s2) = (tr, s') := by injection h
      obtain ⟨h1, h2⟩ : (x, r, b) :: tr1 = tr ∧ s2 = s' := by
        simpa [Prod.ext_iff] using h'
      exact ⟨r, s1, b, tr1, heq, h2 ▸ heq2, h1.symm⟩

theorem runCalls_validKey {o : Objective} :
    ∀ (xs : List (List F)) (s : CallState),
      (∀ k, (List.lookup k s.cache).isSome → o.validKey k) →
      ∀ {tr s'}, o.runCalls s xs = some (tr, s') →
      ∀ k, (List.lookup k s'.cache).isSome → o.validKey k
  | [], s, hs, tr, s', h => by
    obtain ⟨-, h2⟩ := runCalls_nil_inv h
    exact h2 ▸ hs
  | x :: rest, s, hs, tr, s', h => by
    obtain ⟨r, s1, b, tr1, hc, hrest, -⟩ := runCalls_cons_inv h
    exact runCalls_validKey rest s1 (call_validKey_preserved hc hs) hrest

/-- All caches reachable from a fresh instance contain only valid keys. -/
theorem reachable_cache_valid {o : Objective} {xs : List (List F)}
    {tr : List (List F × ObjectiveResult × Bool)} {s : CallState}
    (h : o.runCalls CallState.start xs = some (tr, s)) :
    ∀ k, (List.lookup k s.cache).isSome → o.validKey k :=
  runCalls_validKey xs CallState.start (by intro k hk; simp [CallState.start] at hk) h

/-- In a reachable state, a guard-rejected vector cannot be a cache key. -/
theorem reachable_rejected_not_cached {o : Objective} {xs : List (List F)}
    {tr : List (List F × ObjectiveResult × Bool)} {s : CallState} {x : List F}
    {d : List (String × F)}
    (hrun : o.runCalls CallState.start xs = some (tr, s))
    (hd : array_to_dict o.arg_names x = some d)
    (hbad : o.guardRejects (dictMerge d o.fix) = true) :
    List.lookup x s.cache = none := by
  cases hx : List.lookup x s.cache with
  | none => rfl
  | some r =>
    exfalso
    obtain ⟨d', hd', hg'⟩ := reachable_cache_valid hrun x (by simp [hx])
    rw [hd] at hd'
    injection hd' with hdd
    rw [← hdd] at hg'
    rw [hg'] at hbad
    cases hbad

/-- A guard-rejected call from a reachable state returns the poisoned
result without invoking the likelihood, leaving the state unchanged. -/
theorem reachable_rejected_call {o : Objective} {xs : List (List F)}
    {tr : List (List F × ObjectiveResult × Bool)} {s : CallState} {x : List F}
    {d : List (String × F)}
    (hrun : o.runCalls CallState.start xs = some (tr, s))
    (hd : array_to_dict o.arg_names x = some d)
    (hbad : o.guardRejects (dictMerge d o.fix) = true) :
    o.call s x = some (o.nan_result, s, false) := by
  have hmiss : (if o.memoize then List.lookup x s.cache else none) = none := by
    by_cases hm : o.memoize
    · simp only [hm, if_true]
      exact reachable_rejected_not_cached hrun hd hbad
    · simp [hm]
  unfold Objective.call
  rw [hmiss, hd]
  simp [hbad]

/-! ### C1 -/

/-- C1: on every call whose decoded-and-merged parameter mapping contains
a NaN value or a value outside a declared bound (closed lower, open
upper), `Objective.__call__` returns the poisoned result — `fun` equal to
the configured `nan_val` (whose constructor default is `+∞`) and a
gradient of NaN of length `len(arg_names)` — and the likelihood
collaborator is not invoked; the state is taken to be any state reachable
from a fresh instance. -/
theorem C1_invalid_params_poisoned
    (o : Objective) (xs : List (List F)) (x : List F)
    (tr : List (List F × ObjectiveResult × Bool)) (s : CallState)
    (hrun : o.runCalls CallState.start xs = some (tr, s))
    (d : List (String × F))
    (hd : array_to_dict o.arg_names x = some d)
    (hbad : o.guardRejects (dictMerge d o.fix) = true) :
    o.call s x = some (o.nan_result, s, false) ∧
      (o.nan_result).fun' = o.nan_val ∧
      (o.nan_result).grad = List.replicate o.arg_names.length F.nan ∧
      nanValDefault = F.inf :=
  ⟨reachable_rejected_call hrun hd hbad, rfl, rfl, rfl⟩

/-- C1 witness: the spec's own example — a two-parameter objective
evaluated at `[NaN, 2.0]` from a fresh state. -/
theorem C1_invalid_params_poisoned_witness :
    oA.call CallState.start [F.nan, F.fin 2] =
        some (oA.nan_result, CallState.start, false) ∧
      (oA.nan_result).fun' = oA.nan_val ∧
      (oA.nan_result).grad = List.replicate oA.arg_names.length F.nan ∧
      nanValDefault = F.inf :=
  C1_invalid_params_poisoned oA [] [F.nan, F.fin 2] [] CallState.start rfl
    [("a", F.nan), ("b", F.fin 2)] (by decide) (by decide)

/-! ### C10 -/

/-- C10: the cache only ever holds vectors that passed the parameter
guard (i.e. evaluations that reached the likelihood call), and a
guard-rejected call — even with memoization enabled — finds no cache
entry for its vector and returns the poisoned result with the state
unchanged, so repeated calls with the same invalid vector re-run the
guard and never create a cache entry. -/
theorem C10_invalid_calls_never_cached (o : Objective) :
    (∀ xs tr s, o.runCalls CallState.start xs = some (tr, s) →
      ∀ k, (List.lookup k s.cache).isSome → o.validKey k) ∧
    (∀ xs tr s x d, o.runCalls CallState.start xs = some (tr, s) →
      array_to_dict o.arg_names x = some d →
      o.guardRejects (dictMerge d o.fix) = true →
      List.lookup x s.cache = none ∧
        o.call s x = some (o.nan_result, s, false)) := by
  constructor
  · intro xs tr s hrun
    exact reachable_cache_valid hrun
  · intro xs tr s x d hrun hd hbad
    exact ⟨reachable_rejected_not_cached hrun hd hbad,
      reachable_rejected_call hrun hd hbad⟩

/-- C10 witness: the objective `oA` (memoization enabled) evaluated at
the out-of-bounds vector `[-1, 2]` (the parameter `a` has the closed
lower bound `0`) from a fresh state. -/
theorem C10_invalid_calls_never_cached_witness :
    List.lookup [F.fin (-1), F.fin 2] CallState.start.cache = none ∧
      oA.call CallState.start [F.fin (-1), F.fin 2] =
        some (oA.nan_result, CallState.start, false) :=
  (C10_invalid_calls_never_cached oA).2 [] [] CallState.start
    [F.fin (-1), F.fin 2] [("a", F.fin (-1)), ("b", F.fin 2)] rfl
    (by decide) (by decide)

/-! ### Memoization lemmas -/

/-- The cache after the compute branch. -/
theorem compute_state_cache {o : Objective} {s : CallState} {x : List F}
    {r : ObjectiveResult} {s' : CallState} {b : Bool}
    {params : List (String × F)}
    (hc : (r, s', b) = o.computeBranch s x params) :
    s'.cache = if o.memoize then (x, r) :: s.cache else s.cache := by
  have h1 := congrArg (fun p => p.2.1.cache) hc
  have h2 := congrArg Prod.fst hc
  simp only [computeBranch_eq] at h1 h2
  simp only [h1, h2]

/-- The history after the compute branch. -/
theorem compute_state_history {o : Objective} {s : CallState} {x : List F}
    {r : ObjectiveResult} {s' : CallState} {b : Bool}
    {params : List (String × F)}
    (hc : (r, s', b) = o.computeBranch s x params) :
    s'.history = if o.return_history
      then s.history ++ [⟨params, (o.lf params).1, (o.lf params).2⟩]
      else s.history := by
  have h1 := congrArg (fun p => p.2.1.history) hc
  simp only [computeBranch_eq] at h1
  simp only [h1]

/-- The compute branch reports the collaborator as invoked. -/
theorem compute_state_flag {o : Objective} {s : CallState} {x : List F}
    {r : ObjectiveResult} {s' : CallState} {b : Bool}
    {params : List (String × F)}
    (hc : (r, s', b) = o.computeBranch s x params) : b = true := by
  have h1 := congrArg (fun p => p.2.2) hc
  simpa [computeBranch_eq] using h1

/-- Cache-hit behavior of `__call__` with memoization enabled. -/
theorem call_hit {o : Objective} {s : CallState} {x : List F}
    {r : ObjectiveResult}
    (hm : o.memoize = true) (hx : List.lookup x s.cache = some r) :
    o.call s x = some (r, s, false) := by
  unfold Objective.call
  rw [hm]
  simp [hx]

/-- A successful non-cached, guard-passing call runs the compute branch. -/
theorem call_miss_pass {o : Objective} {s : CallState} {x : List F}
    {d : List (String × F)}
    (hmiss : (if o.memoize then List.lookup x s.cache else none) = none)
    (hd : array_to_dict o.arg_names x = some d)
    (hg : o.guardRejects (dictMerge d o.fix) = false) :
    o.call s x = some (o.computeBranch s x (dictMerge d o.fix)) := by
  unfold Objective.call
  rw [hmiss, hd]
  simp [hg]

/-- Cache entries survive any later call. -/
theorem call_cache_monotone {o : Objective} {s : CallState} {x : List F}
    {r : ObjectiveResult} {s' : CallState} {b : Bool} {k : List F}
    {r0 : ObjectiveResult}
    (h : o.call s x = some (r, s', b))
    (hk : List.lookup k s.cache = some r0) :
    List.lookup k s'.cache = some r0 := by
  rcases call_cases h with ⟨hmiss, hs', _⟩ | ⟨d, hmiss, hd, ⟨_, _, hs', _⟩ | ⟨hg, hc⟩⟩
  · exact hs' ▸ hk
  · exact hs' ▸ hk
  · rw [compute_state_cache hc]
    by_cases hmem : o.memoize
    · simp only [hmem, if_true]
      rw [lookup_cons]
      have hkx : (k == x) = false := by
        rcases hbe : k == x with _ | _
        · rfl
        · exfalso
          have hkeq : k = x := eq_of_beq hbe
          subst hkeq
          rw [hmem] at hmiss
          simp only [if_true] at hmiss
          rw [hmiss] at hk
          cases hk
      rw [hkx]
      simpa using hk
    · simp [hmem, hk]

/-- Cache entries survive any later call sequence. -/
theorem runCalls_cache_monotone {o : Objective} :
    ∀ (xs : List (List F)) (s : CallState) {tr s'} {k : List F}
      {r0 : ObjectiveResult},
      o.runCalls s xs = some (tr, s') →
      List.lookup k s.cache = some r0 →
      List.lookup k s'.cache = some r0
  | [], s, tr, s', k, r0, h, hk => by
    obtain ⟨-, h2⟩ := runCalls_nil_inv h
    exact h2 ▸ hk
  | x :: rest, s, tr, s', k, r0, h, hk => by
    obtain ⟨r, s1, b, tr1, hc, hrest, -⟩ := runCalls_cons_inv h
    exact runCalls_cache_monotone rest s1 hrest (call_cache_monotone hc hk)

/-- A call that invoked the collaborator caches its result (when
memoization is on). -/
theorem call_true_caches {o : Objective} {s : CallState} {x : List F}
    {r : ObjectiveResult} {s' : CallState}
    (hm : o.memoize = true) (h : o.call s x = some (r, s', true)) :
    List.lookup x s'.cache = some r := by
  rcases call_cases h with ⟨_, _, hb⟩ | ⟨d, hmiss, hd, ⟨_, _, _, hb⟩ | ⟨hg, hc⟩⟩
  · cases hb
  · cases hb
  · rw [compute_state_cache hc, hm]
    simp [lookup_cons]

/-- Once a vector is cached, the collaborator never runs on it again. -/
theorem lfCount_zero_of_cached {o : Objective} (hm : o.memoize = true) :
    ∀ (xs : List (List F)) (s : CallState) {x : List F}
      {r0 : ObjectiveResult} {tr s'},
      List.lookup x s.cache = some r0 →
      o.runCalls s xs = some (tr, s') →
      lfCount x tr = 0
  | [], s, x, r0, tr, s', hx, h => by
    obtain ⟨h1, -⟩ := runCalls_nil_inv h
    simp [h1, lfCount]
  | y :: rest, s, x, r0, tr, s', hx, h => by
    obtain ⟨r, s1, b, tr1, hc, hrest, htr⟩ := runCalls_cons_inv h
    subst htr
    rcases hyx : y == x with _ | _
    · have hmono := call_cache_monotone hc hx
      have hrec := lfCount_zero_of_cached hm rest s1 hmono hrest
      simp [lfCount, List.countP_cons, hyx] at hrec ⊢
      exact hrec
    · have hy : y = x := eq_of_beq hyx
      subst hy
      have hcall := call_hit hm hx
      rw [hcall] at hc
      have h' : (r0, s, false) = (r, s1, b) := by injection hc
      obtain ⟨-, h2, h3⟩ : r0 = r ∧ s = s1 ∧ false = b := by
        simpa [Prod.ext_iff] using h'
      have hrec := lfCount_zero_of_cached hm rest s1 (h2 ▸ hx) hrest
      simp [lfCount, List.countP_cons, ← h3] at hrec ⊢
      exact hrec

/-- Over any call sequence, the collaborator runs at most once per
distinct vector (memoization on). -/
theorem lfCount_le_one {o : Objective} (hm : o.memoize = true) :
    ∀ (xs : List (List F)) (s : CallState) {x : List F} {tr s'},
      o.runCalls s xs = some (tr, s') → lfCount x tr ≤ 1
  | [], s, x, tr, s', h => by
    obtain ⟨h1, -⟩ := runCalls_nil_inv h
    simp [h1, lfCount]
  | y :: rest, s, x, tr, s', h => by
    obtain ⟨r, s1, b, tr1, hc, hrest, htr⟩ := runCalls_cons_inv h
    subst htr
    rcases hp : (y == x && b) with _ | _
    · have hrec := @lfCount_le_one o hm rest s1 x tr1 s' hrest
      simpa [lfCount, List.countP_cons, hp] using hrec
    · rw [Bool.and_eq_true] at hp
      obtain ⟨hyx, hb⟩ := hp
      have hy : y = x := eq_of_beq hyx
      subst hy
      subst hb
      have hcached := call_true_caches hm hc
      have hrec := lfCount_zero_of_cached hm rest s1 hcached hrest
      simp [lfCount, List.countP_cons] at hrec ⊢
      exact hrec

/-! ### C2 -/

/-- C2 counterexample: with memoization enabled, the first call with the
vector `[-3, NaN]` (rejected by the NaN guard) succeeds but does not
cache anything: after the call the cache holds no entry for the vector,
contradicting the claim that the first call with every vector computes
and caches its result. -/
theorem C2_counterexample :
    oA.memoize = true ∧
      (oA.call CallState.start [F.fin (-3), F.nan]).map
          (fun t => List.lookup [F.fin (-3), F.nan] t.2.1.cache) =
        some none :=
  ⟨rfl, by decide⟩

/-- C2 (amended): with memoization enabled, (i) a cached vector is
returned as-is without invoking the collaborator; (ii) the first call
with a vector that passes the parameter guard invokes the collaborator
and caches the returned result under the exact vector; (iii) after a
call that invoked the collaborator, any later call with an exactly equal
vector — across any interleaved call sequence — returns the identical
cached `ObjectiveResult` without invoking the collaborator again;
(iv) over any call sequence from a fresh instance the collaborator is
invoked at most once per distinct vector. (The unamended claim fails
for guard-rejected vectors, which are never cached: see the
counterexample and C10.) -/
theorem C2_memoization (o : Objective) (hm : o.memoize = true) :
    (∀ s x r, List.lookup x s.cache = some r →
      o.call s x = some (r, s, false)) ∧
    (∀ s x d, List.lookup x s.cache = none →
      array_to_dict o.arg_names x = some d →
      o.guardRejects (dictMerge d o.fix) = false →
      ∃ r s', o.call s x = some (r, s', true) ∧
        List.lookup x s'.cache = some r) ∧
    (∀ s x r s' ys tr s2, o.call s x = some (r, s', true) →
      o.runCalls s' ys = some (tr, s2) →
      o.call s2 x = some (r, s2, false)) ∧
    (∀ xs tr s' x, o.runCalls CallState.start xs = some (tr, s') →
      lfCount x tr ≤ 1) := by
  refine ⟨?_, ?_, ?_, ?_⟩
  · intro s x r hx
    exact call_hit hm hx
  · intro s x d hx hd hg
    have hmiss : (if o.memoize then List.lookup x s.cache else none) = none := by
      rw [hm]
      simpa using hx
    obtain ⟨r, s', hcb⟩ : ∃ r s',
        o.computeBranch s x (dictMerge d o.fix) = (r, s', true) :=
      ⟨_, _, computeBranch_eq o s x _⟩
    have hcall : o.call s x = some (r, s', true) := by
      rw [call_miss_pass hmiss hd hg, hcb]
    exact ⟨r, s', hcall, call_true_caches hm hcall⟩
  · intro s x r s' ys tr s2 hcall hrun
    exact call_hit hm
      (runCalls_cache_monotone ys s' hrun (call_true_caches hm hcall))
  · intro xs tr s' x hrun
    exact lfCount_le_one hm xs CallState.start hrun

/-- C2 witness: after a computing call of `oA` at `[1, 2]`, an
immediately following call with the exactly equal vector returns the
identical cached result without invoking the collaborator. -/
theorem C2_memoization_witness :
    oA.call ⟨[([F.fin 1, F.fin 2], ⟨F.fin 3, [F.fin 1, F.fin 1]⟩)], []⟩
        [F.fin 1, F.fin 2] =
      some (⟨F.fin 3, [F.fin 1, F.fin 1]⟩,
        ⟨[([F.fin 1, F.fin 2], ⟨F.fin 3, [F.fin 1, F.fin 1]⟩)], []⟩,
        false) :=
  (C2_memoization oA rfl).2.2.1 CallState.start [F.fin 1, F.fin 2]
    ⟨F.fin 3, [F.fin 1, F.fin 1]⟩
    ⟨[([F.fin 1, F.fin 2], ⟨F.fin 3, [F.fin 1, F.fin 1]⟩)], []⟩
    [] []
    ⟨[([F.fin 1, F.fin 2], ⟨F.fin 3, [F.fin 1, F.fin 1]⟩)], []⟩
    (by decide) rfl

/-! ### C8: history recording -/

/-- Per-call history behavior with recording enabled: only a call that
invoked the collaborator appends (exactly one) entry. -/
theorem call_history {o : Objective} {s : CallState} {x : List F}
    {r : ObjectiveResult} {s' : CallState} {b : Bool}
    (hh : o.return_history = true) (h : o.call s x = some (r, s', b)) :
    s'.history = if b then s.history ++ [o.entryFor x] else s.history := by
  rcases call_cases h with ⟨_, hs', hb⟩ | ⟨d, hmiss, hd, ⟨_, _, hs', hb⟩ | ⟨hg, hc⟩⟩
  · subst hb
    simp [hs']
  · subst hb
    simp [hs']
  · have hb : b = true := compute_state_flag hc
    subst hb
    have hhist := compute_state_history hc
    rw [hh] at hhist
    simp only [if_true] at hhist
    rw [hhist]
    simp [Objective.entryFor, hd]

/-- Run-level history: with recording enabled the history grows by
exactly one `{params, y, grad}` entry per collaborator-invoking call, in
call order. -/
theorem runCalls_history {o : Objective} (hh : o.return_history = true) :
    ∀ (xs : List (List F)) (s : CallState) {tr s'},
      o.runCalls s xs = some (tr, s') →
      s'.history = s.history ++
        (tr.filter (fun t => t.2.2)).map (fun t => o.entryFor t.1)
  | [], s, tr, s', h => by
    obtain ⟨h1, h2⟩ := runCalls_nil_inv h
    simp [h1, h2]
  | x :: rest, s, tr, s', h => by
    obtain ⟨r, s1, b, tr1, hc, hrest, htr⟩ := runCalls_cons_inv h
    subst htr
    have h1 := call_history hh hc
    have h2 := runCalls_history hh rest s1 hrest
    cases b with
    | false =>
      simp only [if_false, Bool.false_eq_true] at h1
      rw [h2, h1]
      simp [List.filter_cons]
    | true =>
      simp only [if_true] at h1
      rw [h2, h1]
      simp [List.filter_cons, List.append_assoc]

/-- C8 counterexample: with history recording enabled, a non-cached call
rejected by the bounds guard (parameter `a = -1` against the closed
lower bound `0`) leaves the history empty — no entry is recorded for it,
contrary to the claim. -/
theorem C8_counterexample :
    oH.return_history = true ∧
      (oH.call CallState.start [F.fin (-1), F.fin 2]).map
          (fun t => t.2.1.history) = some [] :=
  ⟨rfl, by decide⟩

/-- C8 (amended): when history recording is enabled, the evaluation
history is an ordered sequence containing one `{params, value, gradient}`
entry for every non-cached call that passes the NaN/bounds guard (i.e.
every call that reaches the likelihood evaluation), in call order;
guard-rejected calls return before the history append and are not
recorded. -/
theorem C8_history_entries (o : Objective) (hh : o.return_history = true) :
    (∀ xs s tr s', o.runCalls s xs = some (tr, s') →
      s'.history = s.history ++
        (tr.filter (fun t => t.2.2)).map (fun t => o.entryFor t.1)) ∧
    (∀ s x d, (if o.memoize then List.lookup x s.cache else none) = none →
      array_to_dict o.arg_names x = some d →
      o.guardRejects (dictMerge d o.fix) = true →
      o.call s x = some (o.nan_result, s, false)) := by
  constructor
  · intro xs s tr s' h
    exact runCalls_history hh xs s h
  · intro s x d hmiss hd hbad
    unfold Objective.call
    rw [hmiss, hd]
    simp [hbad]

/-- C8 witness: one computing call of `oH` at `[1, 2]` records exactly
its `{params, y, grad}` entry. -/
theorem C8_history_entries_witness :
    (⟨[([F.fin 1, F.fin 2], ⟨F.fin 3, [F.fin 1, F.fin 1]⟩)],
        [⟨[("a", F.fin 1), ("b", F.fin 2)], F.fin 3, [F.fin 1, F.fin 1]⟩]⟩ :
        CallState).history =
      CallState.start.history ++
        (([([F.fin 1, F.fin 2], (⟨F.fin 3, [F.fin 1, F.fin 1]⟩ :
              ObjectiveResult), true)]).filter
            (fun t => t.2.2)).map (fun t => oH.entryFor t.1) :=
  (C8_history_entries oH rfl).1 [[F.fin 1, F.fin 2]] CallState.start
    [([F.fin 1, F.fin 2], ⟨F.fin 3, [F.fin 1, F.fin 1]⟩, true)]
    ⟨[([F.fin 1, F.fin 2], ⟨F.fin 3, [F.fin 1, F.fin 1]⟩)],
      [⟨[("a", F.fin 1), ("b", F.fin 2)], F.fin 3, [F.fin 1, F.fin 1]⟩]⟩
    (by decide)

/-! ### C3: parameter codec round trip -/

/-- `_dict_to_array` succeeds and selects values in `arg_names` order
when every name is present. -/
theorem dict_to_array_eq_map (d : List (String × F)) :
    ∀ names : List String, (∀ k ∈ names, (List.lookup k d).isSome) →
      dict_to_array d names =
        some (names.map fun k => (List.lookup k d).getD (F.fin 0))
  | [], _ => rfl
  | k :: ks, h => by
    have hk : (List.lookup k d).isSome := h k (by simp)
    obtain ⟨v, hv⟩ := Option.isSome_iff_exists.mp hk
    have hrest := dict_to_array_eq_map d ks (fun a ha => h a (by simp [ha]))
    unfold dict_to_array
    rw [hv, hrest]
    simp [hv]

/-- C3: for a mapping whose key set is exactly `arg_names`,
`_dict_to_array` succeeds and produces the vector of values in
`arg_names` order; `_array_to_dict` maps it back to a mapping with the
same lookups as the original; and `_array_to_dict` accepts a vector iff
its length equals the `arg_names` length. -/
theorem C3_codec_round_trip (names : List String) (d : List (String × F))
    (hcov : ∀ k, (List.lookup k d).isSome ↔ k ∈ names) :
    ∃ v, dict_to_array d names = some v ∧
      v = (names.map fun k => (List.lookup k d).getD (F.fin 0)) ∧
      array_to_dict names v = some (names.zip v) ∧
      (∀ k, List.lookup k (names.zip v) = List.lookup k d) ∧
      (∀ w, (array_to_dict names w).isSome ↔ w.length = names.length) := by
  refine ⟨names.map fun k => (List.lookup k d).getD (F.fin 0),
    dict_to_array_eq_map d names (fun k hk => (hcov k).mpr hk), rfl, ?_, ?_, ?_⟩
  · unfold array_to_dict
    simp
  · intro k
    rw [zip_self_map (fun k => (List.lookup k d).getD (F.fin 0)) names,
      lookup_map_pair (fun k => (List.lookup k d).getD (F.fin 0)) k names]
    by_cases hk : k ∈ names
    · rw [if_pos hk]
      obtain ⟨v, hv⟩ := Option.isSome_iff_exists.mp ((hcov k).mpr hk)
      simp [hv]
    · rw [if_neg hk]
      cases hld : List.lookup k d with
      | none => rfl
      | some v =>
        exfalso
        exact hk ((hcov k).mp (by simp [hld]))
  · intro w
    unfold array_to_dict
    by_cases hw : w.length = names.length <;> simp [hw]

/-- C3 witness: a two-name codec with the mapping given in the opposite
order round-trips. -/
theorem C3_codec_round_trip_witness :
    ∃ v, dict_to_array [("b", F.fin 2), ("a", F.fin 1)] ["a", "b"] = some v ∧
      v = ((["a", "b"]).map fun k =>
        (List.lookup k [("b", F.fin 2), ("a", F.fin 1)]).getD (F.fin 0)) ∧
      array_to_dict ["a", "b"] v = some ((["a", "b"]).zip v) ∧
      (∀ k, List.lookup k ((["a", "b"]).zip v) =
        List.lookup k [("b", F.fin 2), ("a", F.fin 1)]) ∧
      (∀ w, (array_to_dict ["a", "b"] w).isSome ↔ w.length = 2) :=
  C3_codec_round_trip ["a", "b"] [("b", F.fin 2), ("a", F.fin 1)]
    (by
      intro k
      by_cases h1 : k = "b"
      · subst h1; simp [lookup_cons]
      · by_cases h2 : k = "a"
        · subst h2; simp [lookup_cons]
        · simp [lookup_cons, beq_eq_false_iff_ne.mpr h1,
            beq_eq_false_iff_ne.mpr h2, h1, h2])

/-! ### C6: minimize merges the fixed set back -/

/-- Every returned pair that equals its guess value fires a warning. -/
theorem guessWarnings_mem {o : Objective} :
    ∀ (l : List (String × F)) {ws : List (String × F)} (k : String) (v : F),
      o.guessWarnings l = some ws → (k, v) ∈ l →
      List.lookup k o.guess = some v → (k, v) ∈ ws
  | [], ws, k, v, h, hm, hg => by cases hm
  | (k', v') :: rest, ws, k, v, h, hm, hg => by
    unfold Objective.guessWarnings at h
    cases hlk : List.lookup k' o.guess with
    | none => rw [hlk] at h; cases h
    | some g =>
      rw [hlk] at h
      cases hrec : o.guessWarnings rest with
      | none => rw [hrec] at h; cases h
      | some ws' =>
        rw [hrec] at h
        injection h with h'
        rcases List.mem_cons.mp hm with heq | hmem
        · obtain ⟨e1, e2⟩ : k = k' ∧ v = v' := by simpa [Prod.ext_iff] using heq
          subst e1
          subst e2
          rw [hlk] at hg
          injection hg with hgv
          rw [← h', if_pos hgv]
          exact List.mem_cons_self _ _
        · have hin := guessWarnings_mem rest k v hrec hmem hg
          rw [← h']
          by_cases hif : g = v' <;> simp [hif, hin]

/-- C6: with neither the low-level-result nor the history shortcut
enabled, `minimize()` returns the parsed mapping merged with the fixed
set: every fixed parameter maps to exactly its fixed value regardless of
the parsed backend output, every non-fixed parameter maps to its parsed
estimate, and every returned pair that exactly equals its guess value
fires a no-progress warning while the merged result is still returned. -/
theorem C6_minimize_merges_fix {ρ : Type} (o : Objective) (s : CallState)
    (raw : ρ) (parseResult : ρ → Option (List (String × F) × F))
    (result : List (String × F)) (llval : F) (ws : List (String × F))
    (h1 : o.get_lowlevel_result = false) (h2 : o.return_history = false)
    (hp : parseResult raw = some (result, llval))
    (hw : o.guessWarnings result = some ws) :
    o.minimizeModel s raw parseResult =
        some (.parsed (dictMerge result o.fix) ws) ∧
      (∀ k v, List.lookup k o.fix = some v →
        List.lookup k (dictMerge result o.fix) = some v) ∧
      (∀ k, List.lookup k o.fix = none →
        List.lookup k (dictMerge result o.fix) = List.lookup k result) ∧
      (∀ k v, (k, v) ∈ result → List.lookup k o.guess = some v →
        (k, v) ∈ ws) := by
  refine ⟨?_, ?_, ?_, ?_⟩
  · unfold Objective.minimizeModel
    rw [h1, h2, hp]
    simp [hw]
  · intro k v hkv
    rw [lookup_dictMerge]
    cases hr : List.lookup k result with
    | none => simpa using hkv
    | some v0 => simp [hkv]
  · intro k hk
    rw [lookup_dictMerge]
    cases hr : List.lookup k result with
    | none => simpa using hk
    | some v0 => simp [hk]
  · intro k v hm hg
    exact guessWarnings_mem result k v hw hm hg

/-- C6 witness: `oF` fixes `b = 3.0`; a stub backend returning only
`a = 1.0` (which exactly equals the guess for `a`, so the no-progress
warning fires) yields a result that still contains `b = 3.0`. -/
theorem C6_minimize_merges_fix_witness :
    oF.minimizeModel CallState.start ()
        (fun _ => some ([("a", F.fin 1)], F.fin 0)) =
      some (.parsed (dictMerge [("a", F.fin 1)] oF.fix) [("a", F.fin 1)]) :=
  (C6_minimize_merges_fix oF CallState.start ()
    (fun _ => some ([("a", F.fin 1)], F.fin 0))
    [("a", F.fin 1)] (F.fin 0) [("a", F.fin 1)] rfl rfl rfl (by decide)).1

/-! ### C7: failure policy -/

/-- C7: `fail` raises `OptimizerFailure` when `allow_failure` is false
(the constructor default) and only emits a non-fatal warning when it is
true; consequently the scipy `parse_result` raises on a non-converged
backend result iff `allow_failure` is false, and otherwise (as on
success) still returns the parsed mapping `dict(zip(arg_names, x))`. -/
theorem C7_fail_policy (o : Objective) (m : String) (r : ScipyResult) :
    (o.allow_failure = false → o.fail m = .raised m) ∧
    (o.allow_failure = true → o.fail m = .warned m) ∧
    allowFailureDefault = false ∧
    (r.success = false → o.allow_failure = false →
      o.scipyParseResult r = (.error (scipyFailMessage r), [])) ∧
    (r.success = false → o.allow_failure = true →
      o.scipyParseResult r =
        (.ok (o.arg_names.zip r.x, r.fval), [scipyFailMessage r])) ∧
    (r.success = true →
      o.scipyParseResult r = (.ok (o.arg_names.zip r.x, r.fval), [])) := by
  refine ⟨?_, ?_, rfl, ?_, ?_, ?_⟩
  · intro h
    simp [Objective.fail, h]
  · intro h
    simp [Objective.fail, h]
  · intro hs h
    simp [Objective.scipyParseResult, hs, Objective.fail, h]
  · intro hs h
    simp [Objective.scipyParseResult, hs, Objective.fail, h]
  · intro hs
    simp [Objective.scipyParseResult, hs]

/-- C7 witness: a non-converging stub raises under the default
`allow_failure = False`. -/
theorem C7_fail_policy_witness :
    oA.scipyParseResult rFail = (.error (scipyFailMessage rFail), []) :=
  (C7_fail_policy oA "stub" rFail).2.2.2.1 rfl rfl

/-! ### C9: Minuit error-step defaults -/

/-- C9 counterexample: for the guess `[-1]` the code's hint is the floor
`1e-3`, while ten percent of the guess magnitude is `0.1`: the hint is
not `max(0.1 * |guess|, 1e-3)`. -/
theorem C9_counterexample :
    minuitErrorDefault [-1] = [1 / 1000] ∧
      max (|(-1 : ℚ)| * (1 / 10)) (1 / 1000) = 1 / 10 ∧
      ((1 : ℚ) / 1000) ≠ 1 / 10 := by
  refine ⟨?_, ?_, by norm_num⟩
  · simp only [minuitErrorDefault, List.map]
    norm_num [max_def]
  · norm_num [max_def, abs_neg, abs_one]

/-- C9 (amended): the Minuit default error-step hint for parameter `i`
is `max(0.1 * guess_i, 1e-3)` with the signed guess value (not its
magnitude); it is always strictly positive, and equals `0.1 * guess_i`
whenever that product exceeds the `1e-3` floor. -/
theorem C9_minuit_error_default (xs : List ℚ) (i : ℕ) (hi : i < xs.length) :
    (minuitErrorDefault xs).getD i 0 =
        max (xs.getD i 0 * (1 / 10)) (1 / 1000) ∧
      0 < (minuitErrorDefault xs).getD i 0 ∧
      ((1 / 1000 : ℚ) < xs.getD i 0 * (1 / 10) →
        (minuitErrorDefault xs).getD i 0 = xs.getD i 0 * (1 / 10)) := by
  have hmap : (minuitErrorDefault xs).getD i 0 =
      max (xs.getD i 0 * (1 / 10)) (1 / 1000) := by
    unfold minuitErrorDefault
    rw [List.getD_eq_getElem?_getD, List.getElem?_map,
      List.getElem?_eq_getElem hi]
    rw [List.getD_eq_getElem?_getD, List.getElem?_eq_getElem hi]
    rfl
  refine ⟨hmap, ?_, ?_⟩
  · rw [hmap]
    exact lt_of_lt_of_le (by norm_num) (le_max_right _ _)
  · intro h
    rw [hmap]
    exact max_eq_left (le_of_lt h)

/-- C9 witness: for the guess `[2]`, the hint is `0.2`, ten percent of
the guess. -/
theorem C9_minuit_error_default_witness :
    (minuitErrorDefault [2]).getD 0 0 =
        max (([2] : List ℚ).getD 0 0 * (1 / 10)) (1 / 1000) ∧
      0 < (minuitErrorDefault [2]).getD 0 0 ∧
      ((1 / 1000 : ℚ) < ([2] : List ℚ).getD 0 0 * (1 / 10) →
        (minuitErrorDefault [2]).getD 0 0 =
          ([2] : List ℚ).getD 0 0 * (1 / 10)) :=
  C9_minuit_error_default [2] 0 (by norm_num)

/-! ### List getD helpers -/

theorem getD_set_eq : ∀ (l : List ℝ) (i : ℕ) (a : ℝ), i < l.length →
    (l.set i a).getD i 0 = a
  | [], i, a, h => by simp at h
  | x :: xs, 0, a, h => rfl
  | x :: xs, n + 1, a, h => by
    simp only [List.set_cons_succ, List.getD_cons_succ]
    exact getD_set_eq xs n a (by simpa using h)

theorem getD_set_ne : ∀ (l : List ℝ) (i j : ℕ) (a : ℝ), i ≠ j →
    (l.set i a).getD j 0 = l.getD j 0
  | [], _, _, _, _ => by simp
  | x :: xs, 0, 0, a, h => absurd rfl h
  | x :: xs, 0, m + 1, a, h => by simp
  | x :: xs, n + 1, 0, a, h => by simp
  | x :: xs, n + 1, m + 1, a, h => by
    simp only [List.set_cons_succ, List.getD_cons_succ]
    exact getD_set_ne xs n m a (fun e => h (by rw [e]))

theorem getD_map_lt (f : ℝ → ℝ) : ∀ (l : List ℝ) (i : ℕ), i < l.length →
    (l.map f).getD i 0 = f (l.getD i 0)
  | [], i, h => by simp at h
  | x :: xs, 0, h => rfl
  | x :: xs, n + 1, h => by
    simp only [List.map, List.getD_cons_succ]
    exact getD_map_lt f xs n (by simpa using h)

/-! ### C4: interval guess construction -/

theorem max_absorb (L v : ℝ) : max (max L v) L = max L v :=
  max_eq_left (le_max_left L v)

/-- C4: for every `IntervalObjective` constructed without an explicit
guess for the target parameter, the derived guess is
`max(LOWER_RATE_MULTIPLIER_BOUND, bestfit_tp + direction * min(dx1, dx2))`
with `dx1 = sqrt(2 dy) * |sigma_guess|` and `dx2 = |dy / slope|` for
nonzero slope and infinite otherwise (the extra rate-multiplier floor is
absorbed by the outer max); in the concrete scenario `bestfit_tp = 5`,
`direction = +1`, `sigma_guess = 2`, `slope = 0`, `dy = 2.7055` the
guess is `9.652` to within `1/1000`. -/
theorem C4_interval_guess_formula :
    (∀ (tp sg slope dy dir : ℝ) (rm : Bool),
      tpGuessNoExplicit tp sg slope dy dir rm =
        max LOWER_RATE_MULTIPLIER_BOUND
          (tp + dir * (if slope = 0 then Real.sqrt (2 * dy) * |sg|
            else min (Real.sqrt (2 * dy) * |sg|) |dy / slope|))) ∧
    |tpGuessNoExplicit 5 2 0 2.7055 1 false - 9.652| < 1 / 1000 := by
  constructor
  · intro tp sg slope dy dir rm
    by_cases hsl : slope = 0
    · cases rm with
      | false => simp [tpGuessNoExplicit, hsl]
      | true => simp [tpGuessNoExplicit, hsl, max_absorb]
    · cases rm with
      | false => simp [tpGuessNoExplicit, hsl]
      | true => simp [tpGuessNoExplicit, hsl, max_absorb]
  · have hsq : Real.sqrt (2 * 2.7055) ^ 2 = 2 * 2.7055 :=
      Real.sq_sqrt (by norm_num)
    have hnn : (0 : ℝ) ≤ Real.sqrt (2 * 2.7055) := Real.sqrt_nonneg _
    have hl : (2.3255 : ℝ) < Real.sqrt (2 * 2.7055) := by nlinarith
    have hr : Real.sqrt (2 * 2.7055) < 2.3265 := by nlinarith
    have hunfold : tpGuessNoExplicit 5 2 0 2.7055 1 false =
        max LOWER_RATE_MULTIPLIER_BOUND
          (5 + 1 * (Real.sqrt (2 * 2.7055) * |(2 : ℝ)|)) := by
      simp [tpGuessNoExplicit]
    rw [hunfold]
    have habs : |(2 : ℝ)| = 2 := by norm_num
    rw [habs]
    rw [max_eq_right (by unfold LOWER_RATE_MULTIPLIER_BOUND; nlinarith)]
    rw [abs_lt]
    constructor <;> nlinarith

/-! ### C5: interval objective evaluation formulas -/

/-- C5: at parameters where the target parameter has value `x`, with
`diff = (base value − m2ll_best) − t_ppf(x)`,
`x_norm = (x − bestfit_tp) / sigma_guess` and
`tilt = 4 * llr_tolerance * critical_quantile`, the
`IntervalObjective._inner_fun_and_grad` value equals
`diff² − direction * tilt * x_norm + offset` with `offset = 1`, its
gradient equals `2 * diff * (base gradient − t_ppf_grad(x))` with
`−direction * tilt / sigma_guess` added to the target parameter's
component only, and `absolute_to_relative_tol(t) = t / offset = t`. -/
theorem C5_interval_objective_formula (o : IntervalObjectiveR)
    (params : List (String × ℝ)) (x : ℝ)
    (hx : List.lookup o.target_parameter params = some x)
    (hmem : o.target_parameter ∈ o.arg_names)
    (hlen : (o.base params).2.length = o.arg_names.length) :
    (o.inner_fun_and_grad params).1 =
        ((o.base params).1 - o.m2ll_best - o.t_ppf x) ^ 2 -
          o.direction * (4 * o.llr_tolerance * o.critical_quantile) *
            ((x - o.bestfit_tp) / o.sigma_guess) + 1 ∧
      o.tilt = 4 * o.llr_tolerance * o.critical_quantile ∧
      (o.inner_fun_and_grad params).2.length = (o.base params).2.length ∧
      (∀ i, i < (o.base params).2.length →
        (o.inner_fun_and_grad params).2.getD i 0 =
          2 * ((o.base params).1 - o.m2ll_best - o.t_ppf x) *
              ((o.base params).2.getD i 0 - o.t_ppf_grad x) +
            (if i = o.arg_names.indexOf o.target_parameter
              then -o.direction * o.tilt / o.sigma_guess else 0)) ∧
      (∀ t, IntervalObjectiveR.absolute_to_relative_tol t = t) := by
  have hidx : o.arg_names.indexOf o.target_parameter <
      (o.base params).2.length := by
    rw [hlen]
    exact List.indexOf_lt_length.mpr hmem
  refine ⟨?_, rfl, ?_, ?_, ?_⟩
  · simp only [IntervalObjectiveR.inner_fun_and_grad, hx, Option.getD_some,
      IntervalObjectiveR.tilt, intervalOffset]
  · simp [IntervalObjectiveR.inner_fun_and_grad]
  · intro i hi
    simp only [IntervalObjectiveR.inner_fun_and_grad, hx, Option.getD_some]
    have hmaplen : ((o.base params).2.map
        (fun g => 2 * ((o.base params).1 - o.m2ll_best - o.t_ppf x) *
          (g - o.t_ppf_grad x))).length = (o.base params).2.length :=
      List.length_map _ _
    by_cases hieq : i = o.arg_names.indexOf o.target_parameter
    · subst hieq
      rw [getD_set_eq _ _ _ (by rw [hmaplen]; exact hidx)]
      rw [getD_map_lt _ _ _ hidx]
      simp [IntervalObjectiveR.tilt]
    · rw [getD_set_ne _ _ _ _ (fun e => hieq e.symm)]
      rw [getD_map_lt _ _ _ hi]
      simp [hieq]
  · intro t
    simp [IntervalObjectiveR.absolute_to_relative_tol, intervalOffset]

/-- C5 witness: the value formula at a concrete one-parameter interval
objective evaluated at `t = 2`. -/
theorem C5_interval_objective_formula_witness :
    (oI.inner_fun_and_grad [("t", 2)]).1 =
      ((oI.base [("t", 2)]).1 - oI.m2ll_best - oI.t_ppf 2) ^ 2 -
        oI.direction * (4 * oI.llr_tolerance * oI.critical_quantile) *
          ((2 - oI.bestfit_tp) / oI.sigma_guess) + 1 :=
  (C5_interval_objective_formula oI [("t", 2)] 2 rfl (by simp [oI]) rfl).1

end Flamedisx
